import Mathlib

/-!
Shallow embedding of the QUIC benchmark client driver (`examples/client.c`).

The driver is a single-connection event-loop program: a UDP socket feeds a
QUIC protocol engine, three timers (retransmission, request cadence, shutdown
grace) drive callbacks, and a fixed-capacity global table `fcts` of `N`
begin/end timestamp pairs records per-request latency.

The embedding models each callback (`flush_egress`, `recv_cb`, `request_cb`,
`close_cb`) as a pure function of the driver state together with an event
describing the external responses (engine results, socket results, readable
streams, timestamps).  C machine integers are modelled as `Int`/`Nat`;
C `/` on possibly negative operands is `Int.tdiv` (truncation toward zero),
and the `unsigned long long` conversion followed by `%lld` printing is made
explicit via reduction modulo `2 ^ 64` and signed reinterpretation.
-/

/-- The request budget, `#define N 100` in the source. -/
def N : Nat := 100

/-- `MAX_DATAGRAM_SIZE` from the source. -/
def MAX_DATAGRAM_SIZE : Nat := 1350

/-- A `struct timeval`: seconds and microseconds, both signed C longs. -/
structure Timeval where
  tv_sec : Int
  tv_usec : Int
deriving DecidableEq

/-- The all-zero `timeval`, value of a zero-initialised entry. -/
def zeroTimeval : Timeval := ⟨0, 0⟩

/-- A `struct fct`: begin/end timestamps of one request slot. -/
structure Fct where
  begin : Timeval
  end_ : Timeval
deriving DecidableEq

/-- A zero-initialised `struct fct`, as `main` initialises every `fcts[i]`. -/
def zeroFct : Fct := ⟨zeroTimeval, zeroTimeval⟩

/-- How a callback hands control back: ordinary return, `ev_break` of the
event loop, or a process `exit(code)`. -/
inductive HandlerControl where
  | returned : HandlerControl
  | loopBreak : HandlerControl
  | exited (code : Int) : HandlerControl
deriving DecidableEq

/-- One iteration of the `flush_egress` loop, as seen from the outside:
the engine's `quiche_conn_send` result paired (when a packet is produced)
with the socket `send` result. -/
inductive EngineSend where
  | engineDone : EngineSend
  | engineErr : EngineSend
  | packet (written : Nat) (sent : Int) : EngineSend
deriving DecidableEq

/-- Result of one `flush_egress` call: packets fully sent, whether the
retransmission timer was re-armed, and how the function gave back control. -/
structure FlushResult where
  packetsSent : Nat
  timerRearmed : Bool
  control : HandlerControl
deriving DecidableEq

/-- The `while (1)` loop of `flush_egress`: on `QUICHE_ERR_DONE` break and
re-arm the retransmission timer; on an engine error or a socket send that
does not write exactly `written` bytes, return early (timer not re-armed);
otherwise count the packet and continue. -/
def flushGo : List EngineSend → Nat → FlushResult
  | [], k => ⟨k, true, .returned⟩
  | .engineDone :: _, k => ⟨k, true, .returned⟩
  | .engineErr :: _, k => ⟨k, false, .returned⟩
  | .packet written sent :: rest, k =>
      if sent ≠ (written : Int) then ⟨k, false, .returned⟩
      else flushGo rest (k + 1)

/-- `flush_egress`, driven by the trace of engine/socket responses. -/
def flush_egress (tr : List EngineSend) : FlushResult := flushGo tr 0

/-- One iteration of the datagram `recv` loop in `recv_cb`: the socket
`recv` result and, when a datagram arrives, the engine's
`quiche_conn_recv` result. -/
inductive RecvStep where
  | wouldBlock : RecvStep
  | recvFatal : RecvStep
  | engineDone : RecvStep
  | engineErr : RecvStep
  | processed (n : Nat) : RecvStep
deriving DecidableEq

/-- The datagram loop of `recv_cb`. `true` means the loop was left by
`break` (would-block or engine `DONE`) and the callback continues;
`false` means the callback returned early (fatal recv error or engine
packet-processing error). -/
def recvLoopOK : List RecvStep → Bool
  | [] => true
  | .wouldBlock :: _ => true
  | .recvFatal :: _ => false
  | .engineDone :: _ => true
  | .engineErr :: _ => false
  | .processed _ :: rest => recvLoopOK rest

/-- Outcome of `quiche_conn_stream_recv` for one readable stream. -/
inductive ReadOutcome where
  | err : ReadOutcome
  | ok (len : Nat) (fin : Bool) : ReadOutcome
deriving DecidableEq

/-- `true` iff the stream read succeeded (`recv_len >= 0`). -/
def ReadOutcome.isOk : ReadOutcome → Bool
  | .err => false
  | .ok _ _ => true

/-- The readable-stream loop of `recv_cb`, over the iterator's stream ids
(each with its read outcome and the `gettimeofday` value taken on fin).
Returns the streams whose read succeeded, in order, and the ledger end
writes `(s / 4, timestamp)` performed for streams whose read reported fin.
A read error executes `break`, leaving the loop. -/
def readableLoop : List (Nat × ReadOutcome × Timeval) → List Nat × List (Nat × Timeval)
  | [] => ([], [])
  | (_, .err, _) :: _ => ([], [])
  | (s, .ok _ fin, t) :: rest =>
      let r := readableLoop rest
      (s :: r.1, (if fin then [(s / 4, t)] else []) ++ r.2)

/-- External responses for one `recv_cb` invocation. -/
structure IngressEvent where
  recvSteps : List RecvStep
  isClosed : Bool
  isEstablished : Bool
  readables : List (Nat × ReadOutcome × Timeval)
deriving DecidableEq

/-- Result of one `recv_cb` invocation. -/
structure RecvCbResult where
  control : HandlerControl
  processed : List Nat
  endWrites : List (Nat × Timeval)
  flushed : Bool
deriving DecidableEq

/-- `recv_cb`: drain datagrams (early return on a fatal error), then check
`quiche_conn_is_closed` (break the event loop), then — only when the
connection is established — run the readable-stream loop, and finally
`flush_egress`. -/
def recv_cb (ev : IngressEvent) : RecvCbResult :=
  if recvLoopOK ev.recvSteps = false then ⟨.returned, [], [], false⟩
  else if ev.isClosed then ⟨.loopBreak, [], [], false⟩
  else
    let r := if ev.isEstablished then readableLoop ev.readables else ([], [])
    ⟨.returned, r.1, r.2, true⟩

/-- External responses for one `request_cb` invocation: the engine's
established flag, the `quiche_conn_stream_send` result and the
`gettimeofday` value. -/
structure TickEvent where
  established : Bool
  sendResult : Int
  now : Timeval
deriving DecidableEq

/-- Result of one `request_cb` invocation. -/
structure RequestCbResult where
  request_id : Int
  issued : Option Int
  beginWrite : Option (Int × Timeval)
  closeArmed : Bool
  requestRearmed : Bool
  requestStopped : Bool
  flushed : Bool
deriving DecidableEq

/-- The tail of `request_cb` after the issuing branch: arm the shutdown
timer and stop the cadence once `request_id > 4 * N`, otherwise re-arm
the cadence; then `flush_egress`. -/
def requestTail (rid : Int) (issued : Option Int) (bw : Option (Int × Timeval)) :
    RequestCbResult :=
  if rid > 4 * (N : Int) then ⟨rid, issued, bw, true, false, true, true⟩
  else ⟨rid, issued, bw, false, true, false, true⟩

/-- `request_cb`: when established and `request_id <= 4 * N`, attempt the
stream write; a negative result returns early (no state change, no flush);
success records the begin timestamp at ledger index `request_id / 4` and
advances `request_id` by 4, then falls through to the tail. -/
def request_cb (rid : Int) (ev : TickEvent) : RequestCbResult :=
  if ev.established ∧ rid ≤ 4 * (N : Int) then
    if ev.sendResult < 0 then ⟨rid, none, none, false, false, false, false⟩
    else requestTail (rid + 4) (some rid) (some (rid / 4, ev.now))
  else requestTail rid none none

/-- Write a begin timestamp into the ledger, modelled as a map from C array
index to entry (the array's declared capacity is `N`; the map is total so
an out-of-range index is still a definite memory write). -/
def writeBegin (f : Int → Fct) (i : Int) (t : Timeval) : Int → Fct :=
  fun j => if j = i then { f j with begin := t } else f j

/-- Write an end timestamp into the ledger. -/
def writeEnd (f : Int → Fct) (i : Nat) (t : Timeval) : Int → Fct :=
  fun j => if j = (i : Int) then { f j with end_ := t } else f j

/-- An external stimulus of the event loop: a cadence-timer tick
(`request_cb`) or socket readability (`recv_cb`). -/
inductive Event where
  | tick (ev : TickEvent) : Event
  | ingress (ev : IngressEvent) : Event
deriving DecidableEq

/-- Driver state across the run: the `request_id` counter, the `fcts`
ledger, and the history of issues and ledger writes. -/
structure RunState where
  request_id : Int
  fcts : Int → Fct
  issuedIds : List Int
  beginWrites : List (Int × Timeval)
  endWrites : List (Nat × Timeval)

/-- Initial state: `request_id = 4`, all ledger entries zero-initialised. -/
def initRS : RunState := ⟨4, fun _ => zeroFct, [], [], []⟩

/-- One event-loop dispatch. -/
def stepRun (st : RunState) : Event → RunState
  | .tick ev =>
      let r := request_cb st.request_id ev
      { st with
        request_id := r.request_id
        issuedIds := st.issuedIds ++ r.issued.toList
        beginWrites := st.beginWrites ++ r.beginWrite.toList
        fcts := match r.beginWrite with
          | none => st.fcts
          | some p => writeBegin st.fcts p.1 p.2 }
  | .ingress ev =>
      let r := recv_cb ev
      { st with
        endWrites := st.endWrites ++ r.endWrites
        fcts := r.endWrites.foldl (fun f p => writeEnd f p.1 p.2) st.fcts }

/-- A whole run: fold the event-loop dispatch over the stimulus trace. -/
def run (evs : List Event) : RunState := evs.foldl stepRun initRS

/-- Reinterpret an unsigned 64-bit value as the signed value `%lld`
prints for it. -/
def printSigned64 (n : Nat) : Int :=
  if n < 2 ^ 63 then (n : Int) else (n : Int) - 2 ^ 64

/-- The latency value `close_cb` prints for one ledger entry:
`1000 * (end.sec - begin.sec) + (end.usec - begin.usec) / 1000` computed in
signed C `long` (truncating division), converted to `unsigned long long`
and printed with `%lld`. -/
def printedLatency (e : Fct) : Int :=
  let v : Int :=
    1000 * (e.end_.tv_sec - e.begin.tv_sec) +
      Int.tdiv (e.end_.tv_usec - e.begin.tv_usec) 1000
  printSigned64 ((v % 2 ^ 64).toNat)

/-- Result of `close_cb`: the printed report lines and the exit control. -/
structure CloseCbResult where
  report : List (Int × Int)
  control : HandlerControl
deriving DecidableEq

/-- `close_cb`: print one latency line for every `i < N` and then request
graceful closure from the engine; `exit(-1)` on a negative close result,
`exit(0)` otherwise. -/
def close_cb (fcts : Int → Fct) (closeResult : Int) : CloseCbResult :=
  { report := (List.range N).map fun i : Nat => ((i : Int), printedLatency (fcts (i : Int)))
    control := if closeResult < 0 then .exited (-1) else .exited 0 }

/-- The process exit status the OS reports for an `exit(code)` call
(low eight bits). -/
def exitStatus (code : Int) : Nat := (code % 256).toNat

/-- A cadence tick on which the connection is established and the stream
write succeeds. -/
def goodTick : Event := .tick ⟨true, 0, zeroTimeval⟩

/-- A trace of `n` successful cadence ticks. -/
def goodTicks (n : Nat) : List Event := List.replicate n goodTick

/-- Event predicate: every readable stream id offered to the ingress
processor is at least 4 (a stream of the client's own requests). -/
def streamsOK : Event → Prop
  | .tick _ => True
  | .ingress ev => ∀ r ∈ ev.readables, 4 ≤ r.1

instance : DecidablePred streamsOK := fun e => by
  cases e with
  | tick ev => exact isTrue trivial
  | ingress ev => exact List.decidableBAll _ ev.readables

/-! ### Helper lemmas about the embedding -/

theorem N_eq : N = 100 := rfl

theorem writeEnd_begin (f : Int → Fct) (i : Nat) (t : Timeval) (j : Int) :
    ((writeEnd f i t) j).begin = (f j).begin := by
  unfold writeEnd; split <;> rfl

theorem foldl_writeEnd_begin (l : List (Nat × Timeval)) (f : Int → Fct) (j : Int) :
    ((l.foldl (fun g p => writeEnd g p.1 p.2) f) j).begin = (f j).begin := by
  induction l generalizing f with
  | nil => rfl
  | cons p rest ih =>
      rw [List.foldl_cons, ih (writeEnd f p.1 p.2)]
      exact writeEnd_begin f p.1 p.2 j

theorem writeBegin_ne (f : Int → Fct) (i : Int) (t : Timeval) (j : Int) (h : j ≠ i) :
    (writeBegin f i t) j = f j := by
  unfold writeBegin; rw [if_neg h]

theorem writeEnd_ne (f : Int → Fct) (i : Nat) (t : Timeval) (j : Int) (h : j ≠ (i : Int)) :
    (writeEnd f i t) j = f j := by
  unfold writeEnd; rw [if_neg h]

theorem foldl_writeEnd_ne (l : List (Nat × Timeval)) (f : Int → Fct) (j : Int)
    (h : ∀ p ∈ l, j ≠ ((p.1 : Nat) : Int)) :
    (l.foldl (fun g p => writeEnd g p.1 p.2) f) j = f j := by
  induction l generalizing f with
  | nil => rfl
  | cons p rest ih =>
      rw [List.foldl_cons, ih (writeEnd f p.1 p.2) fun q hq => h q (List.mem_cons_of_mem p hq)]
      exact writeEnd_ne f p.1 p.2 j (h p (List.mem_cons_self p rest))

@[simp] theorem requestTail_request_id (rid : Int) (i : Option Int) (b : Option (Int × Timeval)) :
    (requestTail rid i b).request_id = rid := by
  unfold requestTail; split <;> rfl

@[simp] theorem requestTail_issued (rid : Int) (i : Option Int) (b : Option (Int × Timeval)) :
    (requestTail rid i b).issued = i := by
  unfold requestTail; split <;> rfl

@[simp] theorem requestTail_beginWrite (rid : Int) (i : Option Int) (b : Option (Int × Timeval)) :
    (requestTail rid i b).beginWrite = b := by
  unfold requestTail; split <;> rfl

@[simp] theorem requestTail_flushed (rid : Int) (i : Option Int) (b : Option (Int × Timeval)) :
    (requestTail rid i b).flushed = true := by
  unfold requestTail; split <;> rfl

theorem request_cb_fail (rid : Int) (ev : TickEvent) (h1 : ev.established = true)
    (h2 : rid ≤ 4 * (N : Int)) (h3 : ev.sendResult < 0) :
    request_cb rid ev = ⟨rid, none, none, false, false, false, false⟩ := by
  unfold request_cb; rw [if_pos ⟨h1, h2⟩, if_pos h3]

theorem request_cb_issue (rid : Int) (ev : TickEvent) (h1 : ev.established = true)
    (h2 : rid ≤ 4 * (N : Int)) (h3 : ¬ ev.sendResult < 0) :
    request_cb rid ev = requestTail (rid + 4) (some rid) (some (rid / 4, ev.now)) := by
  unfold request_cb; rw [if_pos ⟨h1, h2⟩, if_neg h3]

theorem request_cb_skip (rid : Int) (ev : TickEvent)
    (h : ¬(ev.established = true ∧ rid ≤ 4 * (N : Int))) :
    request_cb rid ev = requestTail rid none none := by
  unfold request_cb; rw [if_neg h]

/-- Run invariant: `request_id` counts the issues, at most `N` requests are
ever issued, the i-th issue used id `4 + 4 * i`, every begin write landed at
an index in `1..N`, and slot 0 never got a begin timestamp. -/
def RunInv (st : RunState) : Prop :=
  st.request_id = 4 + 4 * (st.issuedIds.length : Int) ∧
  st.issuedIds.length ≤ N ∧
  st.issuedIds = (List.range st.issuedIds.length).map (fun i : Nat => 4 + 4 * (i : Int)) ∧
  (∀ p ∈ st.beginWrites, 1 ≤ p.1 ∧ p.1 ≤ (N : Int)) ∧
  (st.fcts 0).begin = zeroTimeval

theorem inv_stepRun (st : RunState) (e : Event) (h : RunInv st) : RunInv (stepRun st e) := by
  obtain ⟨h1, h2, h3, h4, h5⟩ := h
  cases e with
  | ingress ev =>
      refine ⟨h1, h2, h3, h4, ?_⟩
      show (((recv_cb ev).endWrites.foldl (fun g p => writeEnd g p.1 p.2) st.fcts) 0).begin =
        zeroTimeval
      rw [foldl_writeEnd_begin]; exact h5
  | tick ev =>
      by_cases hg : ev.established = true ∧ st.request_id ≤ 4 * (N : Int)
      · by_cases hs : ev.sendResult < 0
        · simp only [stepRun, request_cb_fail st.request_id ev hg.1 hg.2 hs, Option.toList,
            List.append_nil]
          exact ⟨h1, h2, h3, h4, h5⟩
        · have hN : (N : Int) = 100 := by norm_num [N]
          have hrid := h1
          have hle := hg.2
          simp only [stepRun, request_cb_issue st.request_id ev hg.1 hg.2 hs,
            requestTail_request_id, requestTail_issued, requestTail_beginWrite, Option.toList]
          refine ⟨?_, ?_, ?_, ?_, ?_⟩
          · show st.request_id + 4 = 4 + 4 * (((st.issuedIds ++ [st.request_id]).length : Nat) : Int)
            rw [List.length_append, List.length_singleton]
            push_cast
            omega
          · show (st.issuedIds ++ [st.request_id]).length ≤ N
            rw [List.length_append]
            rw [hN] at hle; rw [N_eq]
            simp only [List.length_singleton]
            omega
          · show st.issuedIds ++ [st.request_id] =
              (List.range (st.issuedIds ++ [st.request_id]).length).map (fun i : Nat => 4 + 4 * (i : Int))
            rw [List.length_append, List.length_singleton, List.range_succ, List.map_append,
              List.map_singleton]
            rw [← h3, h1]
          · intro p hp
            rcases List.mem_append.mp hp with hp | hp
            · exact h4 p hp
            · have hp' : p = (st.request_id / 4, ev.now) := List.mem_singleton.mp hp
              subst hp'
              show 1 ≤ st.request_id / 4 ∧ st.request_id / 4 ≤ (N : Int)
              rw [hN] at hle ⊢
              omega
          · show ((writeBegin st.fcts (st.request_id / 4) ev.now) 0).begin = zeroTimeval
            rw [writeBegin_ne]
            · exact h5
            · rw [hN] at hle
              omega
      · simp only [stepRun, request_cb_skip st.request_id ev hg, requestTail_request_id,
          requestTail_issued, requestTail_beginWrite, Option.toList, List.append_nil]
        exact ⟨h1, h2, h3, h4, h5⟩

theorem inv_foldl (evs : List Event) (st : RunState) (h : RunInv st) :
    RunInv (evs.foldl stepRun st) := by
  induction evs generalizing st with
  | nil => exact h
  | cons e rest ih => exact ih (stepRun st e) (inv_stepRun st e h)

theorem inv_initRS : RunInv initRS := by
  refine ⟨by norm_num [initRS], by norm_num [initRS, N], rfl, ?_, rfl⟩
  intro p hp
  simp [initRS] at hp

theorem inv_run (evs : List Event) : RunInv (run evs) := inv_foldl evs initRS inv_initRS

theorem readableLoop_fst (l : List (Nat × ReadOutcome × Timeval)) :
    (readableLoop l).1 = (l.takeWhile fun r => r.2.1.isOk).map (fun r => r.1) := by
  induction l with
  | nil => rfl
  | cons r rest ih =>
      obtain ⟨s, o, t⟩ := r
      cases o with
      | err => simp [readableLoop, List.takeWhile_cons, ReadOutcome.isOk]
      | ok len fin => simp [readableLoop, List.takeWhile_cons, ReadOutcome.isOk, ih]

theorem readableLoop_endWrites_ge (l : List (Nat × ReadOutcome × Timeval))
    (hl : ∀ r ∈ l, 4 ≤ r.1) : ∀ p ∈ (readableLoop l).2, 1 ≤ p.1 := by
  induction l with
  | nil => intro p hp; simp [readableLoop] at hp
  | cons r rest ih =>
      obtain ⟨s, o, t⟩ := r
      cases o with
      | err => intro p hp; simp [readableLoop] at hp
      | ok len fin =>
          intro p hp
          have hs : 4 ≤ s := hl (s, .ok len fin, t) (List.mem_cons_self _ _)
          simp only [readableLoop] at hp
          rcases List.mem_append.mp hp with hp | hp
          · cases fin with
            | false => simp at hp
            | true =>
                simp at hp
                subst hp
                show 1 ≤ s / 4
                omega
          · exact ih (fun q hq => hl q (List.mem_cons_of_mem _ hq)) p hp

theorem recv_cb_endWrites_ge (ev : IngressEvent) (hl : ∀ r ∈ ev.readables, 4 ≤ r.1) :
    ∀ p ∈ (recv_cb ev).endWrites, 1 ≤ p.1 := by
  unfold recv_cb
  split
  · intro p hp; simp at hp
  · split
    · intro p hp; simp at hp
    · by_cases he : ev.isEstablished = true
      · simp only [he, if_true]
        exact readableLoop_endWrites_ge ev.readables hl
      · simp only [Bool.not_eq_true] at he
        simp only [he]
        intro p hp; simp at hp

theorem recv_cb_fatal (ev : IngressEvent) (h : recvLoopOK ev.recvSteps = false) :
    recv_cb ev = ⟨.returned, [], [], false⟩ := by
  unfold recv_cb; rw [if_pos h]

theorem recv_cb_processed_takeWhile (ev : IngressEvent) (h1 : recvLoopOK ev.recvSteps = true)
    (h2 : ev.isClosed = false) (h3 : ev.isEstablished = true) :
    (recv_cb ev).processed = (ev.readables.takeWhile fun r => r.2.1.isOk).map (fun r => r.1) := by
  unfold recv_cb
  rw [if_neg (by rw [h1]; exact fun hc => Bool.noConfusion hc), if_neg (by rw [h2]; exact fun hc => Bool.noConfusion hc)]
  simp only [h3, if_true]
  exact readableLoop_fst ev.readables

/-- A `flush_egress` loop iteration on which the engine produced a packet
and the socket accepted all of it. -/
def goodSend : EngineSend → Prop
  | .packet w s => s = (w : Int)
  | _ => False

theorem flushGo_short (pre : List EngineSend) (w : Nat) (s : Int) (post : List EngineSend)
    (k : Nat) (hpre : ∀ e ∈ pre, goodSend e) (hshort : s ≠ (w : Int)) :
    flushGo (pre ++ .packet w s :: post) k = ⟨k + pre.length, false, .returned⟩ := by
  induction pre generalizing k with
  | nil =>
      rw [List.nil_append]
      show flushGo (.packet w s :: post) k = _
      unfold flushGo
      rw [if_pos hshort]
      simp
  | cons e pre' ih =>
      have hge := hpre e (List.mem_cons_self _ _)
      cases e with
      | engineDone => exact absurd hge (by simp [goodSend])
      | engineErr => exact absurd hge (by simp [goodSend])
      | packet w' s' =>
          have heq : s' = (w' : Int) := hge
          rw [List.cons_append]
          show flushGo (.packet w' s' :: (pre' ++ .packet w s :: post)) k = _
          unfold flushGo
          rw [if_neg (not_not_intro heq),
            ih (k + 1) (fun q hq => hpre q (List.mem_cons_of_mem _ hq))]
          simp only [List.length_cons, FlushResult.mk.injEq, and_true]
          omega

theorem flush_egress_short (pre : List EngineSend) (w : Nat) (s : Int) (post : List EngineSend)
    (hpre : ∀ e ∈ pre, goodSend e) (hshort : s ≠ (w : Int)) :
    flush_egress (pre ++ .packet w s :: post) = ⟨pre.length, false, .returned⟩ := by
  unfold flush_egress
  rw [flushGo_short pre w s post 0 hpre hshort]
  rw [Nat.zero_add]

theorem fcts0_stepRun (st : RunState) (e : Event) (hInv : RunInv st)
    (h0 : st.fcts 0 = zeroFct) (he : streamsOK e) : (stepRun st e).fcts 0 = zeroFct := by
  cases e with
  | tick ev =>
      by_cases hg : ev.established = true ∧ st.request_id ≤ 4 * (N : Int)
      · by_cases hs : ev.sendResult < 0
        · simp only [stepRun, request_cb_fail st.request_id ev hg.1 hg.2 hs]
          exact h0
        · obtain ⟨h1, -, -, -, -⟩ := hInv
          simp only [stepRun, request_cb_issue st.request_id ev hg.1 hg.2 hs,
            requestTail_beginWrite]
          show (writeBegin st.fcts (st.request_id / 4) ev.now) 0 = zeroFct
          rw [writeBegin_ne]
          · exact h0
          · omega
      · simp only [stepRun, request_cb_skip st.request_id ev hg, requestTail_beginWrite]
        exact h0
  | ingress ev =>
      have he' : ∀ r ∈ ev.readables, 4 ≤ r.1 := he
      show ((recv_cb ev).endWrites.foldl (fun g p => writeEnd g p.1 p.2) st.fcts) 0 = zeroFct
      rw [foldl_writeEnd_ne]
      · exact h0
      · intro p hp
        have hge := recv_cb_endWrites_ge ev he' p hp
        omega

theorem fcts0_foldl (evs : List Event) (st : RunState) (hInv : RunInv st)
    (h0 : st.fcts 0 = zeroFct) (hok : ∀ e ∈ evs, streamsOK e) :
    (evs.foldl stepRun st).fcts 0 = zeroFct := by
  induction evs generalizing st with
  | nil => exact h0
  | cons e rest ih =>
      exact ih (stepRun st e) (inv_stepRun st e hInv)
        (fcts0_stepRun st e hInv h0 (hok e (List.mem_cons_self _ _)))
        (fun q hq => hok q (List.mem_cons_of_mem _ hq))

theorem fcts0_run (evs : List Event) (hok : ∀ e ∈ evs, streamsOK e) :
    (run evs).fcts 0 = zeroFct :=
  fcts0_foldl evs initRS inv_initRS rfl hok

theorem close_report_get (fcts : Int → Fct) (cr : Int) (i : Nat) (hi : i < N) :
    (close_cb fcts cr).report.get? i = some ((i : Int), printedLatency (fcts (i : Int))) := by
  unfold close_cb
  rw [List.get?_map, List.get?_range hi]
  rfl

theorem printedLatency_incomplete_neg (e : Fct) (hend : e.end_ = zeroTimeval)
    (hs1 : 0 < e.begin.tv_sec) (hs2 : e.begin.tv_sec ≤ 2 ^ 40)
    (hu1 : 0 ≤ e.begin.tv_usec) (hu2 : e.begin.tv_usec < 1000000) :
    printedLatency e < 0 := by
  unfold printedLatency printSigned64
  rw [hend]
  have hzs : zeroTimeval.tv_sec = 0 := rfl
  have hzu : zeroTimeval.tv_usec = 0 := rfl
  rw [hzs, hzu]
  have htd : Int.tdiv (0 - e.begin.tv_usec) 1000 = -(e.begin.tv_usec / 1000) := by
    rw [show (0 - e.begin.tv_usec) = -e.begin.tv_usec by ring, Int.neg_tdiv,
      Int.tdiv_eq_ediv hu1 (by norm_num)]
  rw [htd]
  have h40 : (2 : Int) ^ 40 = 1099511627776 := by norm_num
  have h63n : (2 : Nat) ^ 63 = 9223372036854775808 := by norm_num
  have h64 : (2 : Int) ^ 64 = 18446744073709551616 := by norm_num
  rw [h40] at hs2
  simp only [h63n, h64]
  set v : Int := 1000 * (0 - e.begin.tv_sec) + -(e.begin.tv_usec / 1000) with hv
  have hq1 : 0 ≤ e.begin.tv_usec / 1000 := by omega
  have hq2 : e.begin.tv_usec / 1000 ≤ 999 := by omega
  have hvlo : -(1125899906842624 : Int) < v := by rw [hv]; omega
  have hvhi : v ≤ -1000 := by rw [hv]; omega
  have hm : v % 18446744073709551616 = v + 18446744073709551616 := by omega
  rw [hm]
  have hnn : (0 : Int) ≤ v + 18446744073709551616 := by omega
  have hcast : ((v + 18446744073709551616).toNat : Int) = v + 18446744073709551616 :=
    Int.toNat_of_nonneg hnn
  have hcond : ¬((v + 18446744073709551616).toNat < 9223372036854775808) := by
    intro hlt
    have hlt' : ((v + 18446744073709551616).toNat : Int) < 9223372036854775808 := by
      exact_mod_cast hlt
    omega
  rw [if_neg hcond, hcast]
  omega

/-! ### Claim theorems -/

set_option maxRecDepth 4000 in
/-- C1: the claim that every issued request's ledger index `identifier / 4`
lies in `0..N-1` fails on the code: in the run issuing all `N = 100`
requests, the last issued request (stream id `4 * N = 400`) records its
begin timestamp at ledger index `N = 100`, one past the end of the
`N`-entry `fcts` array. -/
theorem last_request_ledger_index_out_of_range :
    (run (goodTicks N)).issuedIds.length = N ∧
    ((N : Int), zeroTimeval) ∈ (run (goodTicks N)).beginWrites ∧
    ¬((N : Int) ≤ (N : Int) - 1) := by
  refine ⟨by decide, by decide, by norm_num⟩

/-- C2 counterexample: with two readable streams where reading the first
errors, the ingress processor processes no stream at all — enumeration
does not continue to the second stream, contrary to the claim. -/
theorem recv_cb_error_halts_enumeration_cex :
    (recv_cb ⟨[], false, true,
      [(4, .err, zeroTimeval), (8, .ok 5 true, zeroTimeval)]⟩).processed = [] ∧
    (recv_cb ⟨[], false, true,
      [(4, .err, zeroTimeval), (8, .ok 5 true, zeroTimeval)]⟩).endWrites = [] := by
  exact ⟨rfl, rfl⟩

/-- C2 (amended): a stream read error during ingress stops the whole
readable-stream enumeration for this pass (the `break` leaves the loop):
the streams processed are exactly the maximal error-free prefix of the
enumeration, and the erroring stream and all later readable streams are
abandoned until the next pass. -/
theorem ingress_stream_error_stops_enumeration (ev : IngressEvent)
    (h1 : recvLoopOK ev.recvSteps = true) (h2 : ev.isClosed = false)
    (h3 : ev.isEstablished = true) :
    (recv_cb ev).processed =
      (ev.readables.takeWhile fun r => r.2.1.isOk).map (fun r => r.1) :=
  recv_cb_processed_takeWhile ev h1 h2 h3

/-- C2 witness: a concrete ingress pass with streams 4, 8, 12 where
reading stream 8 errors processes exactly stream 4. -/
theorem ingress_stream_error_stops_enumeration_witness :
    (recv_cb ⟨[], false, true, [(4, .ok 2 false, zeroTimeval), (8, .err, zeroTimeval),
      (12, .ok 1 true, zeroTimeval)]⟩).processed = [4] :=
  ingress_stream_error_stops_enumeration _ rfl rfl rfl

/-- A ledger in which slot 0 has a begin timestamp at 10 s and no end
timestamp. -/
def exFcts : Int → Fct := fun j => if j = 0 then ⟨⟨10, 0⟩, zeroTimeval⟩ else zeroFct

/-- C3 counterexample: for a ledger entry with a begin timestamp and no
end timestamp, the shutdown report still prints a line for it, and the
line's value is the timestamp subtraction (`-10000`, a bogus negative
latency) — the entry is neither omitted nor marked incomplete. -/
theorem close_report_bogus_negative_cex :
    (close_cb exFcts 0).report.get? 0 = some (0, -10000) ∧
    (close_cb exFcts 0).report.length = N := by
  exact ⟨rfl, by decide⟩

/-- C3 (amended): the shutdown report prints a line for every slot
`i < N`, always computed by subtracting timestamps; a slot whose begin
timestamp is set (any realistic time) but whose end timestamp was never
set yields a bogus negative printed value rather than being omitted or
reported as incomplete. -/
theorem close_report_incomplete_entry_bogus (fcts : Int → Fct) (cr : Int) (i : Nat)
    (hi : i < N) (hend : (fcts (i : Int)).end_ = zeroTimeval)
    (hs1 : 0 < (fcts (i : Int)).begin.tv_sec)
    (hs2 : (fcts (i : Int)).begin.tv_sec ≤ 2 ^ 40)
    (hu1 : 0 ≤ (fcts (i : Int)).begin.tv_usec)
    (hu2 : (fcts (i : Int)).begin.tv_usec < 1000000) :
    (close_cb fcts cr).report.get? i = some ((i : Int), printedLatency (fcts (i : Int))) ∧
    printedLatency (fcts (i : Int)) < 0 :=
  ⟨close_report_get fcts cr i hi,
   printedLatency_incomplete_neg (fcts (i : Int)) hend hs1 hs2 hu1 hu2⟩

/-- C3 witness: the amended statement instantiated at the concrete ledger
with slot 0 begun at 10 s and never finished. -/
theorem close_report_incomplete_entry_bogus_witness :
    (close_cb exFcts 0).report.get? 0 =
      some (((0 : Nat) : Int), printedLatency (exFcts ((0 : Nat) : Int))) ∧
    printedLatency (exFcts ((0 : Nat) : Int)) < 0 :=
  close_report_incomplete_entry_bogus exFcts 0 0 (by norm_num [N]) rfl (by norm_num [exFcts])
    (by norm_num [exFcts]) (by norm_num [exFcts]) (by norm_num [exFcts])

/-- C4 counterexample: a short write (engine produced 100 bytes, socket
accepted 50) makes `flush_egress` return — control is an ordinary return,
not a process exit, so the run is not aborted and no nonzero exit status
arises; likewise a fatal receive error makes `recv_cb` return. -/
theorem transport_error_no_abort_cex :
    (flush_egress [.packet 100 50]).control = HandlerControl.returned ∧
    (flush_egress [.packet 100 50]).packetsSent = 0 ∧
    (recv_cb ⟨[.recvFatal], false, true, []⟩).control = HandlerControl.returned := by
  exact ⟨rfl, rfl, rfl⟩

/-- C4 (amended): a send that writes fewer bytes than intended stops the
egress pass early — the packets queued after it are not attempted and the
retransmission timer is not re-armed — and a receive error other than
would-block makes the ingress handler return before stream processing and
before flushing; in both cases the handler merely returns to the event
loop: the process is not terminated and no exit status is produced. -/
theorem transport_error_ends_pass_without_exit :
    (∀ (pre : List EngineSend) (w : Nat) (s : Int) (post : List EngineSend),
        (∀ e ∈ pre, goodSend e) → s ≠ (w : Int) →
        flush_egress (pre ++ .packet w s :: post) = ⟨pre.length, false, .returned⟩) ∧
    (∀ ev : IngressEvent, recvLoopOK ev.recvSteps = false →
        recv_cb ev = ⟨.returned, [], [], false⟩) :=
  ⟨flush_egress_short, recv_cb_fatal⟩

/-- C4 witness: the amended statement at a concrete short write and a
concrete fatal receive error. -/
theorem transport_error_ends_pass_without_exit_witness :
    flush_egress [.packet 1350 100] = ⟨0, false, .returned⟩ ∧
    recv_cb ⟨[.recvFatal], true, true, []⟩ = ⟨.returned, [], [], false⟩ :=
  ⟨transport_error_ends_pass_without_exit.1 [] 1350 100 [] (by simp) (by norm_num),
   transport_error_ends_pass_without_exit.2 _ rfl⟩

/-- C5 counterexample: a request tick on an established connection whose
stream write fails (negative result) returns without invoking the egress
flusher, contrary to the claim that every invocation ends by flushing. -/
theorem request_cb_write_failure_skips_flush_cex :
    (request_cb 4 ⟨true, -1, zeroTimeval⟩).flushed = false := by decide

/-- C5 (amended): every invocation of the request-tick handler ends by
invoking the egress flusher except exactly when the connection is
established, the budget gate passes, and the stream write returns a
negative result — on that path the handler returns early without
flushing. -/
theorem request_cb_flushes_iff_no_write_failure (rid : Int) (ev : TickEvent) :
    (request_cb rid ev).flushed = false ↔
      (ev.established = true ∧ rid ≤ 4 * (N : Int) ∧ ev.sendResult < 0) := by
  by_cases hg : ev.established = true ∧ rid ≤ 4 * (N : Int)
  · by_cases hs : ev.sendResult < 0
    · rw [request_cb_fail rid ev hg.1 hg.2 hs]
      simp [hg.1, hg.2, hs]
    · rw [request_cb_issue rid ev hg.1 hg.2 hs]
      simp [requestTail_flushed, hs]
  · rw [request_cb_skip rid ev hg]
    simp only [requestTail_flushed]
    constructor
    · intro h; exact absurd h (by decide)
    · rintro ⟨a, b, -⟩; exact absurd ⟨a, b⟩ hg

/-- C6: a request tick on which the stream write returns a negative result
leaves the entire driver state unchanged — same `request_id`, no issue
recorded, no begin timestamp written — so the same request is retried on
the next cadence tick. -/
theorem request_write_failure_preserves_state (st : RunState) (ev : TickEvent)
    (h1 : ev.established = true) (h2 : st.request_id ≤ 4 * (N : Int))
    (h3 : ev.sendResult < 0) :
    stepRun st (.tick ev) = st := by
  simp only [stepRun, request_cb_fail st.request_id ev h1 h2 h3, Option.toList,
    List.append_nil]

/-- C6 witness: the initial state with a failing write on an established
connection is left unchanged. -/
theorem request_write_failure_preserves_state_witness :
    stepRun initRS (.tick ⟨true, -1, zeroTimeval⟩) = initRS :=
  request_write_failure_preserves_state initRS ⟨true, -1, zeroTimeval⟩ rfl (by decide)
    (by decide)

/-- C7: in every run, the stream identifier of the i-th issued request is
exactly `4 + 4 * i`: the counter starts at 4 and advances by 4 per
successfully issued request. -/
theorem issued_ids_formula (evs : List Event) (k : Nat)
    (hk : k < (run evs).issuedIds.length) :
    (run evs).issuedIds.get? k = some (4 + 4 * (k : Int)) := by
  obtain ⟨-, -, h3, -, -⟩ := inv_run evs
  rw [h3, List.get?_map, List.get?_range hk]
  rfl

/-- C7 witness: in a one-tick run the 0-th issued request used stream
id 4. -/
theorem issued_ids_formula_witness :
    (run [goodTick]).issuedIds.get? 0 = some 4 :=
  issued_ids_formula [goodTick] 0 (by decide)

/-- C8: no matter what trace of ticks and ingress events occurs — in
particular no matter how often the cadence timer fires — the total number
of requests ever issued never exceeds the budget `N`. -/
theorem issued_count_le_budget (evs : List Event) :
    (run evs).issuedIds.length ≤ N :=
  (inv_run evs).2.1

/-- C9: the shutdown-grace handler always exits the process: with status 0
when the engine accepts the close (non-negative result), and with
`exit(-1)` — OS-visible status 255, nonzero — when the engine rejects it
(negative result); these are the only two outcomes. -/
theorem close_cb_exit_dichotomy (fcts : Int → Fct) (cr : Int) :
    (0 ≤ cr → (close_cb fcts cr).control = .exited 0 ∧ exitStatus 0 = 0) ∧
    (cr < 0 → (close_cb fcts cr).control = .exited (-1) ∧ exitStatus (-1) ≠ 0) ∧
    ((close_cb fcts cr).control = .exited 0 ∨ (close_cb fcts cr).control = .exited (-1)) := by
  by_cases h : cr < 0
  · exact ⟨fun h0 => absurd h0 (by omega), fun _ => ⟨by simp [close_cb, h], by decide⟩,
      Or.inr (by simp [close_cb, h])⟩
  · exact ⟨fun _ => ⟨by simp [close_cb, h], by decide⟩, fun hc => absurd hc h,
      Or.inl (by simp [close_cb, h])⟩

/-- C9 witness: the dichotomy at a concrete accepted close (result 0) and
a concrete rejected close (result -1). -/
theorem close_cb_exit_dichotomy_witness :
    (close_cb (fun _ => zeroFct) 0).control = HandlerControl.exited 0 ∧
    (close_cb (fun _ => zeroFct) (-1)).control = HandlerControl.exited (-1) :=
  ⟨((close_cb_exit_dichotomy (fun _ => zeroFct) 0).1 (by norm_num)).1,
   ((close_cb_exit_dichotomy (fun _ => zeroFct) (-1)).2.1 (by norm_num)).1⟩

/-- C10: in every run, every begin-timestamp write lands at ledger index
at least 1, so slot 0 never receives a begin timestamp; slot 0's begin
stays zero-initialised, and in any run whose readable streams are the
client's own request streams (ids ≥ 4) slot 0 stays entirely
zero-initialised and the final report's line for index 0 is `(0, 0)`,
computed from the zero-initialised timestamps. -/
theorem ledger_slot_zero_never_begun (evs : List Event) (cr : Int) :
    (∀ p ∈ (run evs).beginWrites, 1 ≤ p.1) ∧
    ((run evs).fcts 0).begin = zeroTimeval ∧
    ((∀ e ∈ evs, streamsOK e) →
      (run evs).fcts 0 = zeroFct ∧
      (close_cb (run evs).fcts cr).report.get? 0 = some (0, 0)) := by
  obtain ⟨-, -, -, h4, h5⟩ := inv_run evs
  refine ⟨fun p hp => (h4 p hp).1, h5, fun hok => ?_⟩
  have h0 : (run evs).fcts 0 = zeroFct := fcts0_run evs hok
  refine ⟨h0, ?_⟩
  rw [close_report_get (run evs).fcts cr 0 (by norm_num [N])]
  simp only [Nat.cast_zero]
  rw [h0]
  have hz : printedLatency zeroFct = 0 := by decide
  rw [hz]

/-- C10 witness: a concrete run with one issued request and its response
(stream 4 finishing) leaves slot 0 zero-initialised and reports `(0, 0)`
for index 0. -/
theorem ledger_slot_zero_never_begun_witness :
    (run [goodTick, .ingress ⟨[], false, true, [(4, .ok 3 true, zeroTimeval)]⟩]).fcts 0 =
      zeroFct ∧
    (close_cb (run [goodTick, .ingress ⟨[], false, true,
      [(4, .ok 3 true, zeroTimeval)]⟩]).fcts 0).report.get? 0 = some (0, 0) :=
  (ledger_slot_zero_never_begun
    [goodTick, .ingress ⟨[], false, true, [(4, .ok 3 true, zeroTimeval)]⟩] 0).2.2 (by decide)
